import Mathlib

/-!
Verification development for a chess match-control state machine
(React/TypeScript single-page app: a zustand store `gameStore`, the
`ChessGame` controller component, a `ChessTimer` countdown component and a
`useStockfish` hook wrapping a web-worker move proposer).

The embedding translates the store actions (`src/store/gameStore.ts`),
the controller callbacks of `src/components/ChessGame.tsx`
(`onDrop`, `makeMove`, `handleAiMove`, `requestAiMove`, `handleUndo`,
`checkGameEnd`, `addTimeIncrementFor`, the `useStockfish` best-move
callback), the `ChessTimer` interval body and the worker-side delay of
`src/hooks/useStockfish.ts` into pure Lean functions over an explicit
state record.  The external chess engine (chess.js) is treated as an
oracle: a position carries its side to move and the oracle's terminal
verdict flags, and applying a legal move flips the side to move (which
chess.js does on every successful `move`) and installs the oracle's
post-move flags.

JavaScript numbers are modelled by `ℚ` (times in seconds with the
store's 0.1-second rounding via `Math.round(t * 10) / 10`) and `ℤ`
(millisecond budgets).
-/

namespace ChessApp

/-- The two chess sides. -/
inductive Side where
  | white
  | black
deriving DecidableEq, Repr

/-- The opposite side. -/
def Side.other : Side → Side
  | .white => .black
  | .black => .white

/-- Game mode from the store: human-vs-human or human-vs-computer. -/
inductive GameMode where
  | human
  | computer
deriving DecidableEq, Repr

/-- Time control configuration (`TimeControl` in `types/chess`):
minutes of base time, increment in seconds, plus a display name. -/
structure TimeControl where
  minutes : ℤ
  increment : ℚ
  name : String
deriving DecidableEq, Repr

/-- A recorded match result (`GameResult` in `types/chess`):
optional winner and a textual reason. -/
structure GameResult where
  winner : Option Side
  reason : String
deriving DecidableEq, Repr

/-- The zustand store state (`GameState` of `src/store/gameStore.ts`). -/
structure GameState where
  mode : GameMode
  playerSide : Side
  timeControl : TimeControl
  aiStrength : ℤ
  gameStarted : Bool
  gameResult : Option GameResult
  whiteTime : ℚ
  blackTime : ℚ
  activeColor : Side
  isThinking : Bool
  evaluationScore : ℚ
  soundEnabled : Bool
  boardFlipped : Bool
deriving DecidableEq, Repr

/-- `initialState` of `src/store/gameStore.ts`. -/
def initialState : GameState :=
  { mode := .computer
    playerSide := .white
    timeControl := { minutes := 10, increment := 0, name := "Rapid 10+0" }
    aiStrength := 5
    gameStarted := false
    gameResult := none
    whiteTime := 600
    blackTime := 600
    activeColor := .white
    isThinking := false
    evaluationScore := 0
    soundEnabled := true
    boardFlipped := false }

/-- JavaScript `Math.round`: round half towards positive infinity,
`Math.round(x) = ⌊x + 0.5⌋`. -/
def jsRound (x : ℚ) : ℤ := ⌊x + 1 / 2⌋

/-- A rational that is a whole number of tenths — the precision the store
keeps its clocks at (`Math.round(time * 10) / 10`). -/
def Tenth (q : ℚ) : Prop := ∃ k : ℤ, q = k / 10

/-- The remaining time of one side. -/
def timeOf (s : GameState) : Side → ℚ
  | .white => s.whiteTime
  | .black => s.blackTime

/-- Replace the remaining time of one side (the computed
`[timeKey]: …` update of the store). -/
def setTime (s : GameState) (c : Side) (t : ℚ) : GameState :=
  match c with
  | .white => { s with whiteTime := t }
  | .black => { s with blackTime := t }

/-- Store action `updateTime` (`src/store/gameStore.ts`): clamp the new
time at 0 after rounding to a tenth of a second; if it hits 0 while the
game is live and unresolved, record a time-forfeit result against that
side in the same update. -/
def updateTime (s : GameState) (c : Side) (time : ℚ) : GameState :=
  let newTime : ℚ := max 0 ((jsRound (time * 10) : ℚ) / 10)
  if newTime = 0 ∧ s.gameStarted = true ∧ s.gameResult = none then
    { setTime s c 0 with
        gameResult := some { winner := some c.other, reason := "time forfeit" } }
  else
    setTime s c newTime

/-- Store action `endGame`: records the result; deliberately leaves
`gameStarted` true so the UI can show the game-over modal. -/
def endGame (s : GameState) (r : GameResult) : GameState :=
  { s with gameResult := some r }

/-- Store action `startGame`. -/
def startGame (s : GameState) : GameState :=
  { s with gameStarted := true, gameResult := none }

/-- Store action `setActiveColor`. -/
def setActiveColor (s : GameState) (c : Side) : GameState :=
  { s with activeColor := c }

/-- Store action `setThinking`. -/
def setThinking (s : GameState) (b : Bool) : GameState :=
  { s with isThinking := b }

/-- Store action `setPlayerSide`. -/
def setPlayerSide (s : GameState) (c : Side) : GameState :=
  { s with playerSide := c }

/-! ## The position oracle (chess.js)

The controller only consults chess.js through `game.turn()` and the
terminal-status queries `isGameOver / isCheckmate / isStalemate /
isThreefoldRepetition / isInsufficientMaterial / isDraw`.  A position is
therefore embedded as its side to move together with the oracle's
verdict flags; applying a successful move flips the side to move (as
chess.js does on every committed move) and installs the post-move
verdicts, which are an input of the embedding (the oracle's answer for
the new position). -/

/-- The terminal-status answers of the oracle for one position. -/
structure TermFlags where
  isGameOver : Bool
  isCheckmate : Bool
  isStalemate : Bool
  isThreefoldRepetition : Bool
  isInsufficientMaterial : Bool
  isDraw : Bool
deriving DecidableEq, Repr

/-- An oracle position: side to move plus terminal verdicts. -/
structure Position where
  turn : Side
  flags : TermFlags
deriving DecidableEq, Repr

/-- A position with no terminal flag set (the oracle's answers for the
standard start position). -/
def ongoingFlags : TermFlags :=
  { isGameOver := false, isCheckmate := false, isStalemate := false
    isThreefoldRepetition := false, isInsufficientMaterial := false
    isDraw := false }

/-- The standard start position: White to move, game ongoing. -/
def startPosition : Position := { turn := .white, flags := ongoingFlags }

/-- Oracle application of a successful move: the side to move flips and
the flags become the oracle's verdicts for the resulting position. -/
def applyMoveOracle (p : Position) (f : TermFlags) : Position :=
  { turn := p.turn.other, flags := f }

/-- The oracle's answers for one candidate move: whether `game.move`
succeeds, and the terminal verdicts of the resulting position when it
does. -/
structure MoveInput where
  legal : Bool
  postFlags : TermFlags
deriving DecidableEq, Repr

/-! ## Application state

`ChessGame` keeps the chess.js instance in React state next to the
store.  `past` is the move history as the stack of previous positions
(`game.undo()` pops one).  `promotionData` is the UI-local pending
promotion (only its colour matters to the embedding). -/

structure AppState where
  store : GameState
  game : Position
  past : List Position
  promotionData : Option Side
deriving DecidableEq, Repr

/-- `addTimeIncrementFor` (`ChessGame.tsx`): if a positive increment is
configured, add it to the remaining time of the side that just moved
via the store's `updateTime`. -/
def addTimeIncrementFor (s : GameState) (mover : Side) : GameState :=
  if s.timeControl.increment > 0 then
    updateTime s mover (timeOf s mover + s.timeControl.increment)
  else s

/-- `checkGameEnd` (`ChessGame.tsx`): re-derive terminal status from the
given (post-move) position; on checkmate the winner is the side opposite
the position's side to move, on every other terminal verdict the winner
stays `null`; record the result via `endGame`. -/
def checkGameEnd (s : GameState) (g : Position) : GameState :=
  if g.flags.isGameOver = true then
    let winner : Option Side :=
      if g.flags.isCheckmate = true then some g.turn.other else none
    let reason : String :=
      if g.flags.isCheckmate = true then "checkmate"
      else if g.flags.isStalemate = true then "stalemate"
      else if g.flags.isThreefoldRepetition = true then "threefold repetition"
      else if g.flags.isInsufficientMaterial = true then "insufficient material"
      else if g.flags.isDraw = true then "50-move rule"
      else ""
    endGame s { winner := winner, reason := reason }
  else s

/-- `makeMove` (`ChessGame.tsx`): commit a human move if `game.move`
accepts it — replace the position, set the active colour to the new side
to move, award the increment to the mover (the side opposite the new
turn), and re-check terminal status on the post-move position.  Returns
whether the move was committed. -/
def makeMove (s : AppState) (inp : MoveInput) : Bool × AppState :=
  if inp.legal = true then
    let newPos := applyMoveOracle s.game inp.postFlags
    let st1 := setActiveColor s.store newPos.turn
    let mover := newPos.turn.other
    let st2 := addTimeIncrementFor st1 mover
    let st3 := checkGameEnd st2 newPos
    (true, { store := st3, game := newPos, past := s.game :: s.past
             promotionData := s.promotionData })
  else (false, s)

/-- `handleAiMove` (`ChessGame.tsx`): commit a proposer move through the
same sequence as `makeMove`; if `game.move` rejects it (the catch
branch), only clear the thinking flag. -/
def handleAiMove (s : AppState) (mv : MoveInput) : AppState :=
  if mv.legal = true then
    let newPos := applyMoveOracle s.game mv.postFlags
    let st1 := setActiveColor s.store newPos.turn
    let mover := newPos.turn.other
    let st2 := addTimeIncrementFor st1 mover
    let st3 := checkGameEnd st2 newPos
    { store := st3, game := newPos, past := s.game :: s.past
      promotionData := s.promotionData }
  else { s with store := setThinking s.store false }

/-- The `isAiTurn` test of the `useStockfish` best-move callback and of
`requestAiMove`: the human plays White and Black is to move, or the
human plays Black and White is to move. -/
def isAiTurn (s : AppState) : Prop :=
  (s.store.playerSide = .white ∧ s.game.turn = .black) ∨
  (s.store.playerSide = .black ∧ s.game.turn = .white)

instance (s : AppState) : Decidable (isAiTurn s) := by
  unfold isAiTurn; infer_instance

/-- The `onBestMove` callback passed to `useStockfish`
(`ChessGame.tsx` lines 28-37): apply the proposer move only in computer
mode, in a live unresolved game, and only when it is actually the
computer's turn; always clear the thinking flag afterwards. -/
def onBestMoveCallback (s : AppState) (mv : MoveInput) : AppState :=
  let s1 :=
    if s.store.mode = .computer ∧ s.store.gameStarted = true ∧
        s.store.gameResult = none then
      if isAiTurn s then handleAiMove s mv else s
    else s
  { s1 with store := setThinking s1.store false }

/-- The `worker.onmessage` dispatch for a `bestmove` message
(`useStockfish.ts` line 122): `if (move) onBestMove(move)` — a null
move (the worker's "no move available") is dropped and the callback is
never invoked. -/
def handleWorkerBestmove (s : AppState) (m : Option MoveInput) : AppState :=
  match m with
  | none => s
  | some mv => onBestMoveCallback s mv

/-! ## AI move request and its time budget -/

/-- `ChessGame.tsx`: `AI_THINK_MULTIPLIER = 10`. -/
def AI_THINK_MULTIPLIER : ℤ := 10

/-- `requestAiMove`: menu AI level clamped to 1..10,
`Math.max(1, Math.min(10, aiStrength))`. -/
def menuLevel (aiStrength : ℤ) : ℤ := max 1 (min 10 aiStrength)

/-- `requestAiMove`: `Math.round((menuLevel - 1) * (20 / 9))`. -/
def engineSkill (aiStrength : ℤ) : ℤ :=
  jsRound (((menuLevel aiStrength : ℚ) - 1) * (20 / 9))

/-- `requestAiMove`: `levelFactor = 11 - menuLevel`
(level 1 means 10x, level 10 means 1x). -/
def levelFactor (aiStrength : ℤ) : ℤ := 11 - menuLevel aiStrength

/-- `requestAiMove`: `thinkTime = baseMs * AI_THINK_MULTIPLIER *
levelFactor` with `baseMs = 1000`, in milliseconds. -/
def thinkTimeMs (aiStrength : ℤ) : ℤ :=
  1000 * AI_THINK_MULTIPLIER * levelFactor aiStrength

/-- The proposer worker's reply delay for a `findBestMove` request
(`useStockfish.ts` line 65): `setTimeout(..., Math.max(500,
payload.timeMs || 1000))` — the floor actually granted to the move
(`timeMs || 1000` falls back to 1000 when the budget is the falsy 0). -/
def workerDelayMs (timeMs : ℤ) : ℤ :=
  max 500 (if timeMs = 0 then 1000 else timeMs)

/-- The parameters `requestAiMove` passes to `findBestMove`. -/
structure AiRequest where
  skill : ℤ
  depth : ℤ
  thinkTime : ℤ
  wtimeMs : ℚ
  btimeMs : ℚ
  wincMs : ℚ
  bincMs : ℚ
deriving DecidableEq, Repr

/-- `requestAiMove` (`ChessGame.tsx` lines 59-96): bail out unless the
engine is ready, no request is outstanding, the game is unresolved, the
mode is computer and it is the computer's turn; otherwise set the active
colour to the side to move, raise the thinking flag and issue a
`findBestMove` request whose budget is `thinkTimeMs` and which carries
the clamped remaining clocks and increments in milliseconds. -/
def requestAiMove (ready : Bool) (s : AppState) : AppState × Option AiRequest :=
  if ready = false ∨ s.store.isThinking = true ∨ s.store.gameResult ≠ none then
    (s, none)
  else if ¬s.store.mode = .computer then (s, none)
  else if ¬isAiTurn s then (s, none)
  else
    let st1 := setActiveColor s.store s.game.turn
    let st2 := setThinking st1 true
    let req : AiRequest :=
      { skill := engineSkill s.store.aiStrength
        depth := 10
        thinkTime := thinkTimeMs s.store.aiStrength
        wtimeMs := max 0 (s.store.whiteTime * 1000)
        btimeMs := max 0 (s.store.blackTime * 1000)
        wincMs := max 0 (s.store.timeControl.increment * 1000)
        bincMs := max 0 (s.store.timeControl.increment * 1000) }
    ({ s with store := st2 }, some req)

/-! ## Human move intents -/

/-- The oracle's answers consulted by one `onDrop` attempt: the colour
of the piece on the source square (if any), whether the piece/target
pair matches the pawn-promotion pattern, and the legality plus post-move
verdicts of the attempted move. -/
structure DropInput where
  pieceColor : Option Side
  promotionPattern : Bool
  legal : Bool
  postFlags : TermFlags
deriving DecidableEq, Repr

/-- `onDrop` (`ChessGame.tsx` lines 158-206): reject when the game is
not live or already decided; in computer mode reject out-of-turn
attempts and attempts while the computer is thinking; reject when the
source square is empty or holds a piece of the side not to move; for a
legal promotion-pattern move record the pending promotion (UI-local)
and report the drop as rejected; otherwise commit through `makeMove`
exactly when the move is legal.  The promotion second phase
(`handlePromotion`) is a modal dialog and commits through the same
`makeMove`; per the match-control contract it is one atomic commit, so
this embedding keeps the drop event atomic and models only the
first-phase bookkeeping here. -/
def onDrop (s : AppState) (inp : DropInput) : Bool × AppState :=
  if s.store.gameStarted = false ∨ s.store.gameResult ≠ none then (false, s)
  else if s.store.mode = .computer ∧
      (¬((s.store.playerSide = .white ∧ s.game.turn = .white) ∨
         (s.store.playerSide = .black ∧ s.game.turn = .black)) ∨
       s.store.isThinking = true) then (false, s)
  else
    match inp.pieceColor with
    | none => (false, s)
    | some c =>
      if ¬c = s.game.turn then (false, s)
      else if inp.promotionPattern = true then
        (false, if inp.legal = true then { s with promotionData := some c } else s)
      else
        makeMove s { legal := inp.legal, postFlags := inp.postFlags }

/-! ## Undo -/

/-- External calls a handler can emit: a proposer `findBestMove`
request (via `requestAiMove`) or an `analyzePosition` evaluation
request. -/
inductive EngineCall where
  | findBestMoveCall
  | analyzeCall
deriving DecidableEq, Repr

/-- `handleUndo` (`ChessGame.tsx` lines 381-391): if there is any move
history, pop one move, set the active colour to the restored side to
move and request a fresh evaluation.  The body issues no
`requestAiMove` call and leaves `gameResult` untouched. -/
def handleUndo (s : AppState) : AppState × List EngineCall :=
  match s.past with
  | [] => (s, [])
  | p :: rest =>
    ({ store := setActiveColor s.store p.turn, game := p, past := rest
       promotionData := s.promotionData }, [EngineCall.analyzeCall])

/-- The `allowUndo` flag wired to `MoveList` and `GameControls`
(`ChessGame.tsx` lines 507, 525): undo is offered only in
human-vs-human mode while no result is recorded. -/
def allowUndo (s : GameState) : Bool :=
  decide (s.mode = .human) && decide (s.gameResult = none)

/-! ## The clock -/

set_option linter.unusedVariables false

/-- The `onTimeUp` handler (`ChessGame.tsx` `handleTimeUp`): the side
whose flag fell loses on time. -/
def onTimeUp (s : GameState) (c : Side) : GameState :=
  endGame s { winner := some c.other, reason := "time forfeit" }

/-- One firing of the `ChessTimer` interval
(`src/components/ChessTimer.tsx` lines 35-51).  The interval exists only
while the game is live and unresolved; each firing subtracts exactly one
second from the active side's remaining time (clamped at 0) and reports
the new value through the store's `updateTime`, declaring a time forfeit
when it reaches 0.  The `elapsed` argument is the actual wall-clock gap
since the previous firing; the callback never consults it — it
subtracts the fixed one-second step regardless. -/
def chessTimerFire (s : GameState) (elapsed : ℚ) : GameState :=
  if s.gameStarted = true ∧ s.gameResult = none then
    let currentTime := timeOf s s.activeColor
    let newTime := max 0 (currentTime - 1)
    let s1 := updateTime s s.activeColor newTime
    if newTime = 0 then onTimeUp s1 s.activeColor else s1
  else s

/-! ## Match traces

Within one match (mode, player side and strength are fixed until a new
game) the controller state evolves through four kinds of events: a human
drop attempt, a `bestmove` worker message, a (possibly scheduled)
`requestAiMove` call and a timer firing.  Each event may commit at most
one move; a committed move is attributed to the human (the `makeMove`
path, entered only through the `onDrop` guards) or to the computer (the
`handleAiMove` path, entered only through the best-move callback
guards). -/

/-- Who a committed move is attributed to. -/
inductive Actor where
  | human
  | ai
deriving DecidableEq, Repr

/-- A committed move: the side that moved and its attribution. -/
structure Committed where
  mover : Side
  actor : Actor
deriving DecidableEq, Repr

/-- One controller event of a live match. -/
inductive Event where
  | drop (inp : DropInput)
  | bestmove (m : Option MoveInput)
  | aiRequest (ready : Bool)
  | timer (elapsed : ℚ)

/-- Whether a `bestmove` message commits a move: it carries a move, the
callback guards pass, it is the computer's turn and the oracle accepts
the move. -/
def bestmoveCommits (s : AppState) (m : Option MoveInput) : Bool :=
  match m with
  | none => false
  | some mv =>
    decide (s.store.mode = .computer) && s.store.gameStarted &&
    decide (s.store.gameResult = none) && decide (isAiTurn s) && mv.legal

/-- One event step: the successor state and the committed move (if
any), attributed to the handler that applied it. -/
def stepEv (s : AppState) (e : Event) : AppState × Option Committed :=
  match e with
  | .drop inp =>
    let r := onDrop s inp
    (r.2, if r.1 = true then some { mover := s.game.turn, actor := .human } else none)
  | .bestmove m =>
    (handleWorkerBestmove s m,
     if bestmoveCommits s m = true then
       some { mover := s.game.turn, actor := .ai }
     else none)
  | .aiRequest ready => ((requestAiMove ready s).1, none)
  | .timer elapsed =>
    ({ s with store := chessTimerFire s.store elapsed }, none)

/-- Run a list of events, collecting the committed moves in order. -/
def runEvents (s : AppState) : List Event → AppState × List Committed
  | [] => (s, [])
  | e :: es =>
    let r := stepEv s e
    let rest := runEvents r.1 es
    (rest.1, r.2.toList ++ rest.2)

/-- The movers of a committed-move list strictly alternate, starting
from the given side to move. -/
def moversAlt : Side → List Committed → Bool
  | _, [] => true
  | t, c :: cs => decide (c.mover = t) && moversAlt t.other cs

/-- Every human-attributed commit was made by the player's side and
every computer-attributed commit by the opposite side. -/
def actorsOk (ps : Side) : List Committed → Bool
  | [] => true
  | c :: cs =>
    (match c.actor with
     | .human => decide (c.mover = ps)
     | .ai => decide (c.mover = ps.other)) && actorsOk ps cs

/-- The first committed move, if any, is computer-attributed and made
by White. -/
def firstIsAiWhite : List Committed → Bool
  | [] => true
  | c :: _ => decide (c.actor = .ai) && decide (c.mover = .white)

/-- No two consecutive commits are both computer-attributed. -/
def noConsecAi : List Committed → Bool
  | c1 :: c2 :: cs =>
    !(decide (c1.actor = .ai) && decide (c2.actor = .ai)) && noConsecAi (c2 :: cs)
  | _ => true

/-- Every computer-attributed commit was made by White. -/
def allAiWhite (cs : List Committed) : Bool :=
  cs.all fun c => !decide (c.actor = .ai) || decide (c.mover = .white)

/-- The application state at the start of a human-vs-computer match
with the human playing Black: the store initialised by `GameSetup`
(`setPlayerSide` to black, then `startGame`) and the standard start
position. -/
def initialBlackVsAi : AppState :=
  { store := startGame (setPlayerSide initialState .black)
    game := startPosition
    past := []
    promotionData := none }

/-! ## Concrete states for evaluating the model -/

/-- A live game, White active with 10 seconds on the clock. -/
def timerDemoState : GameState :=
  { initialState with gameStarted := true, whiteTime := 10, activeColor := .white }

/-- A terminal state: White lost on time, White's clock at 0. -/
def terminalDemoState : GameState :=
  { initialState with
      gameStarted := true, whiteTime := 0
      gameResult := some { winner := some .black, reason := "time forfeit" } }

/-- A live game against the computer at strength 10 where the computer
(Black) has only 5 seconds left. -/
def lowClockAiState : AppState :=
  { store := { initialState with
        gameStarted := true, playerSide := .white, blackTime := 5
        aiStrength := 10 }
    game := { turn := .black, flags := ongoingFlags }
    past := []
    promotionData := none }

/-- A live, ongoing position with a proposer request outstanding. -/
def thinkingOngoingState : AppState :=
  { store := { initialState with gameStarted := true, isThinking := true }
    game := startPosition
    past := []
    promotionData := none }

/-- A legal move whose resulting position is ongoing. -/
def legalOngoingMove : MoveInput := { legal := true, postFlags := ongoingFlags }

/-- The state after the computer's first (legal) move in the
human-plays-Black match. -/
def afterFirstAiMove : AppState :=
  handleWorkerBestmove initialBlackVsAi (some legalOngoingMove)

/-- A live computer-mode game with a 2-second increment, human plays
White, White to move. -/
def incrementDemoState : AppState :=
  { store := { initialState with
        gameStarted := true
        timeControl := { minutes := 10, increment := 2, name := "Rapid 10+2" } }
    game := startPosition
    past := []
    promotionData := none }

/-- A terminal app state (checkmate already recorded). -/
def terminalAppState : AppState :=
  { store := { initialState with
        gameStarted := true
        gameResult := some { winner := some .white, reason := "checkmate" } }
    game := { turn := .black, flags := ongoingFlags }
    past := []
    promotionData := none }

/-- A live computer-mode game at the defaults (no increment). -/
def liveDemoAppState : AppState :=
  { store := startGame initialState
    game := startPosition
    past := []
    promotionData := none }

/-- A legal move that checkmates the opponent. -/
def mateMove : MoveInput :=
  { legal := true
    postFlags :=
      { isGameOver := true, isCheckmate := true, isStalemate := false
        isThreefoldRepetition := false, isInsufficientMaterial := false
        isDraw := false } }

/-- A drop attempt by White's piece, legal, leading to an ongoing
position. -/
def demoDropInput : DropInput :=
  { pieceColor := some .white, promotionPattern := false, legal := true
    postFlags := ongoingFlags }

/-! ## Basic facts about sides -/

theorem Side.other_other (s : Side) : s.other.other = s := by
  cases s <;> rfl

theorem Side.other_ne (s : Side) : s.other ≠ s := by
  cases s <;> simp [Side.other]

/-! ## Frame lemmas for the store actions -/

@[simp] theorem setTime_mode (s : GameState) (c : Side) (t : ℚ) :
    (setTime s c t).mode = s.mode := by cases c <;> rfl

@[simp] theorem setTime_playerSide (s : GameState) (c : Side) (t : ℚ) :
    (setTime s c t).playerSide = s.playerSide := by cases c <;> rfl

@[simp] theorem setTime_gameStarted (s : GameState) (c : Side) (t : ℚ) :
    (setTime s c t).gameStarted = s.gameStarted := by cases c <;> rfl

@[simp] theorem setTime_gameResult (s : GameState) (c : Side) (t : ℚ) :
    (setTime s c t).gameResult = s.gameResult := by cases c <;> rfl

@[simp] theorem setTime_activeColor (s : GameState) (c : Side) (t : ℚ) :
    (setTime s c t).activeColor = s.activeColor := by cases c <;> rfl

@[simp] theorem setTime_isThinking (s : GameState) (c : Side) (t : ℚ) :
    (setTime s c t).isThinking = s.isThinking := by cases c <;> rfl

@[simp] theorem setTime_timeControl (s : GameState) (c : Side) (t : ℚ) :
    (setTime s c t).timeControl = s.timeControl := by cases c <;> rfl

@[simp] theorem timeOf_setTime_self (s : GameState) (c : Side) (t : ℚ) :
    timeOf (setTime s c t) c = t := by cases c <;> rfl

@[simp] theorem timeOf_setTime_other (s : GameState) (c : Side) (t : ℚ) :
    timeOf (setTime s c t) c.other = timeOf s c.other := by cases c <;> rfl

@[simp] theorem timeOf_withResult (s : GameState) (r : Option GameResult) (c : Side) :
    timeOf { s with gameResult := r } c = timeOf s c := by cases c <;> rfl

@[simp] theorem timeOf_endGame (s : GameState) (r : GameResult) (c : Side) :
    timeOf (endGame s r) c = timeOf s c := by cases c <;> rfl

@[simp] theorem timeOf_setActiveColor (s : GameState) (a : Side) (c : Side) :
    timeOf (setActiveColor s a) c = timeOf s c := by cases c <;> rfl

@[simp] theorem updateTime_mode (s : GameState) (c : Side) (t : ℚ) :
    (updateTime s c t).mode = s.mode := by
  unfold updateTime; dsimp only; split <;> simp

@[simp] theorem updateTime_playerSide (s : GameState) (c : Side) (t : ℚ) :
    (updateTime s c t).playerSide = s.playerSide := by
  unfold updateTime; dsimp only; split <;> simp

@[simp] theorem updateTime_gameStarted (s : GameState) (c : Side) (t : ℚ) :
    (updateTime s c t).gameStarted = s.gameStarted := by
  unfold updateTime; dsimp only; split <;> simp

@[simp] theorem updateTime_activeColor (s : GameState) (c : Side) (t : ℚ) :
    (updateTime s c t).activeColor = s.activeColor := by
  unfold updateTime; dsimp only; split <;> simp

@[simp] theorem updateTime_isThinking (s : GameState) (c : Side) (t : ℚ) :
    (updateTime s c t).isThinking = s.isThinking := by
  unfold updateTime; dsimp only; split <;> simp

@[simp] theorem updateTime_timeControl (s : GameState) (c : Side) (t : ℚ) :
    (updateTime s c t).timeControl = s.timeControl := by
  unfold updateTime; dsimp only; split <;> simp

/-- `updateTime` never overwrites an already-recorded result. -/
theorem updateTime_gameResult_some (s : GameState) (c : Side) (t : ℚ)
    (r : GameResult) (h : s.gameResult = some r) :
    (updateTime s c t).gameResult = some r := by
  unfold updateTime
  dsimp only
  split
  · next hcond => rw [h] at hcond; exact absurd hcond.2.2 (by simp)
  · simpa using h

/-- The updated side's stored time is never negative. -/
theorem updateTime_nonneg (s : GameState) (c : Side) (t : ℚ) :
    0 ≤ timeOf (updateTime s c t) c := by
  unfold updateTime
  dsimp only
  split
  · cases c <;> simp [timeOf, setTime]
  · simp only [timeOf_setTime_self]; positivity

/-- `updateTime` does not touch the other side's clock. -/
theorem updateTime_other (s : GameState) (c : Side) (t : ℚ) :
    timeOf (updateTime s c t) c.other = timeOf s c.other := by
  unfold updateTime
  dsimp only
  split
  · cases c <;> simp [timeOf, setTime, Side.other]
  · simp

/-! ## Rounding lemmas -/

/-- `Math.round` is the identity on whole numbers. -/
theorem jsRound_intCast (k : ℤ) : jsRound (k : ℚ) = k := by
  unfold jsRound
  rw [add_comm, Int.floor_add_int]
  norm_num

/-- On a positive whole number of tenths, `updateTime` stores the value
exactly and takes no forfeit branch. -/
theorem updateTime_exact (s : GameState) (c : Side) {t : ℚ}
    (ht : Tenth t) (hpos : 0 < t) :
    updateTime s c t = setTime s c t := by
  obtain ⟨k, rfl⟩ := ht
  have h10 : ((k : ℚ) / 10) * 10 = (k : ℚ) := by
    field_simp
  unfold updateTime
  dsimp only
  rw [h10, jsRound_intCast, max_eq_right hpos.le, if_neg]
  intro hcond
  exact absurd hcond.1 hpos.ne'

theorem Tenth.add {a b : ℚ} (ha : Tenth a) (hb : Tenth b) : Tenth (a + b) := by
  obtain ⟨x, rfl⟩ := ha
  obtain ⟨y, rfl⟩ := hb
  exact ⟨x + y, by push_cast; ring⟩

/-! ## Frame lemmas for the controller helpers -/

@[simp] theorem endGame_mode (s : GameState) (r : GameResult) :
    (endGame s r).mode = s.mode := rfl

@[simp] theorem endGame_playerSide (s : GameState) (r : GameResult) :
    (endGame s r).playerSide = s.playerSide := rfl

@[simp] theorem endGame_gameStarted (s : GameState) (r : GameResult) :
    (endGame s r).gameStarted = s.gameStarted := rfl

@[simp] theorem endGame_gameResult (s : GameState) (r : GameResult) :
    (endGame s r).gameResult = some r := rfl

@[simp] theorem endGame_activeColor (s : GameState) (r : GameResult) :
    (endGame s r).activeColor = s.activeColor := rfl

@[simp] theorem endGame_isThinking (s : GameState) (r : GameResult) :
    (endGame s r).isThinking = s.isThinking := rfl

@[simp] theorem endGame_timeControl (s : GameState) (r : GameResult) :
    (endGame s r).timeControl = s.timeControl := rfl

@[simp] theorem setActiveColor_mode (s : GameState) (c : Side) :
    (setActiveColor s c).mode = s.mode := rfl

@[simp] theorem setActiveColor_playerSide (s : GameState) (c : Side) :
    (setActiveColor s c).playerSide = s.playerSide := rfl

@[simp] theorem setActiveColor_gameStarted (s : GameState) (c : Side) :
    (setActiveColor s c).gameStarted = s.gameStarted := rfl

@[simp] theorem setActiveColor_gameResult (s : GameState) (c : Side) :
    (setActiveColor s c).gameResult = s.gameResult := rfl

@[simp] theorem setActiveColor_isThinking (s : GameState) (c : Side) :
    (setActiveColor s c).isThinking = s.isThinking := rfl

@[simp] theorem setActiveColor_timeControl (s : GameState) (c : Side) :
    (setActiveColor s c).timeControl = s.timeControl := rfl

@[simp] theorem setActiveColor_whiteTime (s : GameState) (c : Side) :
    (setActiveColor s c).whiteTime = s.whiteTime := rfl

@[simp] theorem setActiveColor_blackTime (s : GameState) (c : Side) :
    (setActiveColor s c).blackTime = s.blackTime := rfl

@[simp] theorem setThinking_mode (s : GameState) (b : Bool) :
    (setThinking s b).mode = s.mode := rfl

@[simp] theorem setThinking_playerSide (s : GameState) (b : Bool) :
    (setThinking s b).playerSide = s.playerSide := rfl

@[simp] theorem setThinking_gameStarted (s : GameState) (b : Bool) :
    (setThinking s b).gameStarted = s.gameStarted := rfl

@[simp] theorem setThinking_gameResult (s : GameState) (b : Bool) :
    (setThinking s b).gameResult = s.gameResult := rfl

@[simp] theorem setThinking_whiteTime (s : GameState) (b : Bool) :
    (setThinking s b).whiteTime = s.whiteTime := rfl

@[simp] theorem setThinking_blackTime (s : GameState) (b : Bool) :
    (setThinking s b).blackTime = s.blackTime := rfl

@[simp] theorem timeOf_setThinking (s : GameState) (b : Bool) (c : Side) :
    timeOf (setThinking s b) c = timeOf s c := by cases c <;> rfl

@[simp] theorem addTimeIncrementFor_mode (s : GameState) (m : Side) :
    (addTimeIncrementFor s m).mode = s.mode := by
  unfold addTimeIncrementFor; split <;> simp

@[simp] theorem addTimeIncrementFor_playerSide (s : GameState) (m : Side) :
    (addTimeIncrementFor s m).playerSide = s.playerSide := by
  unfold addTimeIncrementFor; split <;> simp

@[simp] theorem addTimeIncrementFor_gameStarted (s : GameState) (m : Side) :
    (addTimeIncrementFor s m).gameStarted = s.gameStarted := by
  unfold addTimeIncrementFor; split <;> simp

@[simp] theorem addTimeIncrementFor_activeColor (s : GameState) (m : Side) :
    (addTimeIncrementFor s m).activeColor = s.activeColor := by
  unfold addTimeIncrementFor; split <;> simp

@[simp] theorem addTimeIncrementFor_isThinking (s : GameState) (m : Side) :
    (addTimeIncrementFor s m).isThinking = s.isThinking := by
  unfold addTimeIncrementFor; split <;> simp

@[simp] theorem addTimeIncrementFor_timeControl (s : GameState) (m : Side) :
    (addTimeIncrementFor s m).timeControl = s.timeControl := by
  unfold addTimeIncrementFor; split <;> simp

@[simp] theorem checkGameEnd_mode (s : GameState) (g : Position) :
    (checkGameEnd s g).mode = s.mode := by
  unfold checkGameEnd; split <;> simp

@[simp] theorem checkGameEnd_playerSide (s : GameState) (g : Position) :
    (checkGameEnd s g).playerSide = s.playerSide := by
  unfold checkGameEnd; split <;> simp

@[simp] theorem checkGameEnd_gameStarted (s : GameState) (g : Position) :
    (checkGameEnd s g).gameStarted = s.gameStarted := by
  unfold checkGameEnd; split <;> simp

@[simp] theorem checkGameEnd_activeColor (s : GameState) (g : Position) :
    (checkGameEnd s g).activeColor = s.activeColor := by
  unfold checkGameEnd; split <;> simp

@[simp] theorem checkGameEnd_timeControl (s : GameState) (g : Position) :
    (checkGameEnd s g).timeControl = s.timeControl := by
  unfold checkGameEnd; split <;> simp

@[simp] theorem timeOf_checkGameEnd (s : GameState) (g : Position) (c : Side) :
    timeOf (checkGameEnd s g) c = timeOf s c := by
  unfold checkGameEnd; split <;> simp

@[simp] theorem chessTimerFire_mode (s : GameState) (e : ℚ) :
    (chessTimerFire s e).mode = s.mode := by
  unfold chessTimerFire
  dsimp only
  split
  · split <;> simp [onTimeUp]
  · rfl

@[simp] theorem chessTimerFire_playerSide (s : GameState) (e : ℚ) :
    (chessTimerFire s e).playerSide = s.playerSide := by
  unfold chessTimerFire
  dsimp only
  split
  · split <;> simp [onTimeUp]
  · rfl

/-! ## Structural lemmas about the controller handlers -/

/-- The `isPlayerTurn` disjunction of `onDrop` says exactly that the
side to move is the player's side. -/
theorem playerTurn_iff (ps t : Side) :
    ((ps = .white ∧ t = .white) ∨ (ps = .black ∧ t = .black)) ↔ t = ps := by
  cases ps <;> cases t <;> simp

/-- The `isAiTurn` disjunction says exactly that the side to move is
the computer's side. -/
theorem isAiTurn_iff (s : AppState) :
    isAiTurn s ↔ s.game.turn = s.store.playerSide.other := by
  unfold isAiTurn
  cases hp : s.store.playerSide <;> cases ht : s.game.turn <;>
    simp [Side.other]

theorem makeMove_of_not_legal (s : AppState) (inp : MoveInput)
    (h : inp.legal = false) : makeMove s inp = (false, s) := by
  unfold makeMove
  rw [if_neg]
  simp [h]

theorem makeMove_of_legal (s : AppState) (inp : MoveInput)
    (h : inp.legal = true) :
    makeMove s inp =
      (true,
       { store := checkGameEnd
           (addTimeIncrementFor (setActiveColor s.store s.game.turn.other)
             s.game.turn)
           (applyMoveOracle s.game inp.postFlags)
         game := applyMoveOracle s.game inp.postFlags
         past := s.game :: s.past
         promotionData := s.promotionData }) := by
  unfold makeMove
  rw [if_pos h]
  simp only [applyMoveOracle, Side.other_other]

theorem handleAiMove_of_legal (s : AppState) (mv : MoveInput)
    (h : mv.legal = true) :
    handleAiMove s mv =
      { store := checkGameEnd
          (addTimeIncrementFor (setActiveColor s.store s.game.turn.other)
            s.game.turn)
          (applyMoveOracle s.game mv.postFlags)
        game := applyMoveOracle s.game mv.postFlags
        past := s.game :: s.past
        promotionData := s.promotionData } := by
  unfold handleAiMove
  rw [if_pos h]
  simp only [applyMoveOracle, Side.other_other]

theorem handleAiMove_of_not_legal (s : AppState) (mv : MoveInput)
    (h : mv.legal = false) :
    handleAiMove s mv = { s with store := setThinking s.store false } := by
  unfold handleAiMove
  rw [if_neg]
  simp [h]

theorem makeMove_mode (s : AppState) (inp : MoveInput) :
    (makeMove s inp).2.store.mode = s.store.mode := by
  unfold makeMove
  split
  · simp
  · rfl

theorem makeMove_playerSide (s : AppState) (inp : MoveInput) :
    (makeMove s inp).2.store.playerSide = s.store.playerSide := by
  unfold makeMove
  split
  · simp
  · rfl

theorem handleAiMove_mode (s : AppState) (mv : MoveInput) :
    (handleAiMove s mv).store.mode = s.store.mode := by
  unfold handleAiMove
  split
  · simp
  · simp

theorem handleAiMove_playerSide (s : AppState) (mv : MoveInput) :
    (handleAiMove s mv).store.playerSide = s.store.playerSide := by
  unfold handleAiMove
  split
  · simp
  · simp

/-- A rejected drop leaves the whole match state — store, position and
history — untouched. -/
theorem onDrop_rejected (s : AppState) (inp : DropInput) :
    (onDrop s inp).1 = false →
    (onDrop s inp).2.store = s.store ∧ (onDrop s inp).2.game = s.game ∧
    (onDrop s inp).2.past = s.past := by
  unfold onDrop
  split
  · exact fun _ => ⟨rfl, rfl, rfl⟩
  · split
    · exact fun _ => ⟨rfl, rfl, rfl⟩
    · split
      · exact fun _ => ⟨rfl, rfl, rfl⟩
      · next c =>
        split
        · exact fun _ => ⟨rfl, rfl, rfl⟩
        · split
          · intro _
            split <;> exact ⟨rfl, rfl, rfl⟩
          · intro h
            cases hl : inp.legal with
            | true =>
              rw [makeMove_of_legal s _ hl] at h
              exact absurd h (by simp)
            | false =>
              rw [makeMove_of_not_legal s _ rfl]
              exact ⟨rfl, rfl, rfl⟩

/-- A committed drop passed all guards: live unresolved game, the
player's own turn in computer mode, a legal move; and the result is the
`makeMove` commit. -/
theorem onDrop_committed (s : AppState) (inp : DropInput) :
    (onDrop s inp).1 = true →
    s.store.gameStarted = true ∧ s.store.gameResult = none ∧
    (s.store.mode = .computer → s.game.turn = s.store.playerSide) ∧
    inp.legal = true ∧
    onDrop s inp = makeMove s { legal := inp.legal, postFlags := inp.postFlags } := by
  unfold onDrop
  split
  · intro h; exact absurd h (by simp)
  · next hguard2 =>
    split
    · intro h; exact absurd h (by simp)
    · next hguard3 =>
      split
      · intro h; exact absurd h (by simp)
      · next c =>
        split
        · intro h; exact absurd h (by simp)
        · split
          · intro h
            split at h <;> exact absurd h (by simp)
          · intro h
            push_neg at hguard2
            refine ⟨?_, hguard2.2, ?_, ?_, rfl⟩
            · cases hb : s.store.gameStarted with
              | true => rfl
              | false => exact absurd hb hguard2.1
            · intro hmode
              rcases not_and_or.mp hguard3 with hc | hdisj
              · exact absurd hmode hc
              · push_neg at hdisj
                exact (playerTurn_iff _ _).mp hdisj.1
            · by_contra hl
              rw [makeMove_of_not_legal s _ (by simpa using hl)] at h
              exact absurd h (by simp)

theorem requestAiMove_game (ready : Bool) (s : AppState) :
    (requestAiMove ready s).1.game = s.game := by
  unfold requestAiMove
  dsimp only
  split
  · rfl
  · split
    · rfl
    · split
      · rfl
      · rfl

theorem requestAiMove_mode (ready : Bool) (s : AppState) :
    (requestAiMove ready s).1.store.mode = s.store.mode := by
  unfold requestAiMove
  dsimp only
  split
  · rfl
  · split
    · rfl
    · split
      · rfl
      · simp

theorem requestAiMove_playerSide (ready : Bool) (s : AppState) :
    (requestAiMove ready s).1.store.playerSide = s.store.playerSide := by
  unfold requestAiMove
  dsimp only
  split
  · rfl
  · split
    · rfl
    · split
      · rfl
      · simp

theorem requestAiMove_whiteTime (ready : Bool) (s : AppState) :
    (requestAiMove ready s).1.store.whiteTime = s.store.whiteTime := by
  unfold requestAiMove
  dsimp only
  split
  · rfl
  · split
    · rfl
    · split
      · rfl
      · simp

theorem requestAiMove_blackTime (ready : Bool) (s : AppState) :
    (requestAiMove ready s).1.store.blackTime = s.store.blackTime := by
  unfold requestAiMove
  dsimp only
  split
  · rfl
  · split
    · rfl
    · split
      · rfl
      · simp

/-- A best-move message that passes every guard commits the proposer's
move on the board. -/
theorem onBestMoveCallback_commit_game (s : AppState) (mv : MoveInput)
    (hmode : s.store.mode = .computer) (hstart : s.store.gameStarted = true)
    (hres : s.store.gameResult = none) (hai : isAiTurn s)
    (hl : mv.legal = true) :
    (onBestMoveCallback s mv).game = applyMoveOracle s.game mv.postFlags := by
  unfold onBestMoveCallback
  dsimp only
  rw [if_pos ⟨hmode, hstart, hres⟩, if_pos hai, handleAiMove_of_legal s mv hl]

/-- A best-move message that fails any guard leaves the position
untouched. -/
theorem onBestMoveCallback_nocommit_game (s : AppState) (mv : MoveInput)
    (h : ¬(s.store.mode = .computer ∧ s.store.gameStarted = true ∧
           s.store.gameResult = none) ∨ ¬isAiTurn s ∨ mv.legal = false) :
    (onBestMoveCallback s mv).game = s.game := by
  unfold onBestMoveCallback
  dsimp only
  rcases h with h | h | h
  · rw [if_neg h]
  · by_cases hg : s.store.mode = .computer ∧ s.store.gameStarted = true ∧
        s.store.gameResult = none
    · rw [if_pos hg, if_neg h]
    · rw [if_neg hg]
  · by_cases hg : s.store.mode = .computer ∧ s.store.gameStarted = true ∧
        s.store.gameResult = none
    · by_cases hai : isAiTurn s
      · rw [if_pos hg, if_pos hai, handleAiMove_of_not_legal s mv h]
      · rw [if_pos hg, if_neg hai]
    · rw [if_neg hg]

theorem onBestMoveCallback_mode (s : AppState) (mv : MoveInput) :
    (onBestMoveCallback s mv).store.mode = s.store.mode := by
  unfold onBestMoveCallback
  dsimp only
  split
  · split
    · simp [handleAiMove_mode]
    · simp
  · simp

theorem onBestMoveCallback_playerSide (s : AppState) (mv : MoveInput) :
    (onBestMoveCallback s mv).store.playerSide = s.store.playerSide := by
  unfold onBestMoveCallback
  dsimp only
  split
  · split
    · simp [handleAiMove_playerSide]
    · simp
  · simp

theorem bestmove_commit_props (s : AppState) (mv : MoveInput)
    (h : bestmoveCommits s (some mv) = true) :
    s.store.mode = .computer ∧ s.store.gameStarted = true ∧
    s.store.gameResult = none ∧ isAiTurn s ∧ mv.legal = true := by
  simp only [bestmoveCommits, Bool.and_eq_true, decide_eq_true_eq] at h
  exact ⟨h.1.1.1.1, h.1.1.1.2, h.1.1.2, h.1.2, h.2⟩

theorem bestmove_not_commit_game (s : AppState) (mv : MoveInput)
    (h : bestmoveCommits s (some mv) = false) :
    (onBestMoveCallback s mv).game = s.game := by
  apply onBestMoveCallback_nocommit_game
  by_cases hg : s.store.mode = .computer ∧ s.store.gameStarted = true ∧
      s.store.gameResult = none
  · by_cases hai : isAiTurn s
    · right; right
      cases hl : mv.legal with
      | true =>
        exfalso
        rw [show bestmoveCommits s (some mv) = true by
              simp only [bestmoveCommits, Bool.and_eq_true, decide_eq_true_eq]
              exact ⟨⟨⟨⟨hg.1, hg.2.1⟩, hg.2.2⟩, hai⟩, hl⟩] at h
        exact absurd h (by simp)
      | false => rfl
    · right; left; exact hai
  · left; exact hg

/-! ## The step invariant -/

theorem stepEv_mode (s : AppState) (e : Event) :
    (stepEv s e).1.store.mode = s.store.mode := by
  cases e with
  | drop inp =>
    show (onDrop s inp).2.store.mode = s.store.mode
    cases hb : (onDrop s inp).1 with
    | false => rw [(onDrop_rejected s inp hb).1]
    | true =>
      rw [(onDrop_committed s inp hb).2.2.2.2]
      exact makeMove_mode s _
  | bestmove m =>
    cases m with
    | none => rfl
    | some mv => exact onBestMoveCallback_mode s mv
  | aiRequest ready => exact requestAiMove_mode ready s
  | timer el => exact chessTimerFire_mode s.store el

theorem stepEv_playerSide (s : AppState) (e : Event) :
    (stepEv s e).1.store.playerSide = s.store.playerSide := by
  cases e with
  | drop inp =>
    show (onDrop s inp).2.store.playerSide = s.store.playerSide
    cases hb : (onDrop s inp).1 with
    | false => rw [(onDrop_rejected s inp hb).1]
    | true =>
      rw [(onDrop_committed s inp hb).2.2.2.2]
      exact makeMove_playerSide s _
  | bestmove m =>
    cases m with
    | none => rfl
    | some mv => exact onBestMoveCallback_playerSide s mv
  | aiRequest ready => exact requestAiMove_playerSide ready s
  | timer el => exact chessTimerFire_playerSide s.store el

theorem stepEv_none_turn (s : AppState) (e : Event)
    (h : (stepEv s e).2 = none) : (stepEv s e).1.game.turn = s.game.turn := by
  cases e with
  | drop inp =>
    cases hb : (onDrop s inp).1 with
    | false =>
      show (onDrop s inp).2.game.turn = s.game.turn
      rw [(onDrop_rejected s inp hb).2.1]
    | true =>
      simp only [stepEv, hb] at h
      simp at h
  | bestmove m =>
    cases hbc : bestmoveCommits s m with
    | true =>
      simp only [stepEv, hbc] at h
      simp at h
    | false =>
      cases m with
      | none => rfl
      | some mv =>
        show (onBestMoveCallback s mv).game.turn = s.game.turn
        rw [bestmove_not_commit_game s mv hbc]
  | aiRequest ready =>
    show (requestAiMove ready s).1.game.turn = s.game.turn
    rw [requestAiMove_game]
  | timer el => rfl

theorem stepEv_some (s : AppState) (e : Event) (c : Committed)
    (hm : s.store.mode = .computer) (h : (stepEv s e).2 = some c) :
    c.mover = s.game.turn ∧
    (stepEv s e).1.game.turn = s.game.turn.other ∧
    (c.actor = .human → c.mover = s.store.playerSide) ∧
    (c.actor = .ai → c.mover = s.store.playerSide.other) := by
  cases e with
  | drop inp =>
    cases hb : (onDrop s inp).1 with
    | false =>
      simp only [stepEv, hb] at h
      simp at h
    | true =>
      simp only [stepEv, hb] at h
      rw [if_pos trivial] at h
      injection h with h
      subst h
      obtain ⟨hg1, hg2, hturn, hlegal, heq⟩ := onDrop_committed s inp hb
      refine ⟨rfl, ?_, fun _ => hturn hm, fun hca => Actor.noConfusion hca⟩
      show (onDrop s inp).2.game.turn = s.game.turn.other
      rw [heq, makeMove_of_legal s _ hlegal]
      rfl
  | bestmove m =>
    cases hbc : bestmoveCommits s m with
    | false =>
      simp only [stepEv, hbc] at h
      simp at h
    | true =>
      simp only [stepEv, hbc] at h
      rw [if_pos trivial] at h
      injection h with h
      subst h
      cases m with
      | none => simp [bestmoveCommits] at hbc
      | some mv =>
        obtain ⟨h1, h2, h3, h4, h5⟩ := bestmove_commit_props s mv hbc
        refine ⟨rfl, ?_, fun hca => Actor.noConfusion hca,
                fun _ => (isAiTurn_iff s).mp h4⟩
        show (onBestMoveCallback s mv).game.turn = s.game.turn.other
        rw [onBestMoveCallback_commit_game s mv h1 h2 h3 h4 h5]
        rfl
  | aiRequest ready => simp [stepEv] at h
  | timer el => simp [stepEv] at h

/-- Turn invariant over a run: movers alternate starting from the side
to move, human commits come from the player's side and computer commits
from the opposite side; mode and player side never change. -/
theorem runEvents_inv (es : List Event) (s : AppState)
    (hm : s.store.mode = .computer) :
    (runEvents s es).1.store.mode = .computer ∧
    (runEvents s es).1.store.playerSide = s.store.playerSide ∧
    moversAlt s.game.turn (runEvents s es).2 = true ∧
    actorsOk s.store.playerSide (runEvents s es).2 = true := by
  induction es generalizing s with
  | nil => simpa [runEvents, moversAlt, actorsOk] using hm
  | cons e es ih =>
    have hmode1 : (stepEv s e).1.store.mode = .computer := by
      rw [stepEv_mode]; exact hm
    have hps1 : (stepEv s e).1.store.playerSide = s.store.playerSide :=
      stepEv_playerSide s e
    obtain ⟨ihm, ihps, ihalt, ihok⟩ := ih (stepEv s e).1 hmode1
    simp only [runEvents]
    cases hc : (stepEv s e).2 with
    | none =>
      have hturn := stepEv_none_turn s e hc
      simp only [Option.toList_none, List.nil_append]
      refine ⟨ihm, by rw [ihps, hps1], ?_, ?_⟩
      · rw [← hturn]; exact ihalt
      · rw [← hps1]; exact ihok
    | some c =>
      obtain ⟨hmov, hturn, hhum, hai⟩ := stepEv_some s e c hm hc
      simp only [Option.toList_some, List.cons_append, List.nil_append]
      refine ⟨ihm, by rw [ihps, hps1], ?_, ?_⟩
      · simp only [moversAlt, Bool.and_eq_true, decide_eq_true_eq]
        refine ⟨hmov, ?_⟩
        rw [← hturn]
        exact ihalt
      · simp only [actorsOk, Bool.and_eq_true]
        constructor
        · cases hca : c.actor with
          | human => simpa using hhum hca
          | ai => simpa using hai hca
        · rw [← hps1]; exact ihok


/-- Alternating movers plus side-consistent attribution forbid two
consecutive computer commits. -/
theorem noConsecAi_of_alt (ps : Side) (cs : List Committed) :
    ∀ t : Side, moversAlt t cs = true → actorsOk ps cs = true →
      noConsecAi cs = true := by
  induction cs with
  | nil => intro t _ _; rfl
  | cons c1 rest ih =>
    intro t h1 h2
    cases rest with
    | nil => rfl
    | cons c2 rest2 =>
      simp only [moversAlt, Bool.and_eq_true, decide_eq_true_eq] at h1
      obtain ⟨hm1, h1'⟩ := h1
      have h1x := h1'
      simp only [moversAlt, Bool.and_eq_true, decide_eq_true_eq] at h1x
      obtain ⟨hm2, -⟩ := h1x
      simp only [actorsOk, Bool.and_eq_true] at h2
      obtain ⟨ha1, h2'⟩ := h2
      have ha2 := h2'.1
      have h1r : moversAlt t.other (c2 :: rest2) = true := by
        simp only [moversAlt, Bool.and_eq_true, decide_eq_true_eq]
        exact ⟨hm2, h1'.2⟩
      have h2r : actorsOk ps (c2 :: rest2) = true := by
        simp only [actorsOk, Bool.and_eq_true]
        exact h2'
      simp only [noConsecAi, Bool.and_eq_true]
      refine ⟨?_, ih t.other h1r h2r⟩
      cases hA : c1.actor with
      | human => simp [hA]
      | ai =>
        cases hB : c2.actor with
        | human => simp [hB]
        | ai =>
          exfalso
          simp only [hA, decide_eq_true_eq] at ha1
          simp only [hB, decide_eq_true_eq] at ha2
          rw [hm1] at ha1
          rw [hm2] at ha2
          rw [← ha1] at ha2
          exact Side.other_ne t ha2

/-- With White to move first and the human on Black, the first commit
(if any) is a computer move by White. -/
theorem firstIsAiWhite_of_inv (cs : List Committed)
    (halt : moversAlt .white cs = true) (hok : actorsOk .black cs = true) :
    firstIsAiWhite cs = true := by
  cases cs with
  | nil => rfl
  | cons c rest =>
    simp only [moversAlt, Bool.and_eq_true, decide_eq_true_eq] at halt
    simp only [actorsOk, Bool.and_eq_true] at hok
    obtain ⟨hm, -⟩ := halt
    obtain ⟨ha, -⟩ := hok
    simp only [firstIsAiWhite, Bool.and_eq_true, decide_eq_true_eq]
    cases hA : c.actor with
    | human =>
      simp only [hA, decide_eq_true_eq] at ha
      rw [hm] at ha
      exact absurd ha (by decide)
    | ai => exact ⟨rfl, hm⟩

/-- With the human on Black, every computer commit is by White. -/
theorem allAiWhite_of_actorsOk (cs : List Committed)
    (hok : actorsOk .black cs = true) : allAiWhite cs = true := by
  induction cs with
  | nil => rfl
  | cons c rest ih =>
    simp only [actorsOk, Bool.and_eq_true] at hok
    obtain ⟨ha, hrest⟩ := hok
    simp only [allAiWhite, List.all_cons, Bool.and_eq_true]
    refine ⟨?_, ih hrest⟩
    cases hA : c.actor with
    | human => simp [hA]
    | ai =>
      simp only [hA, decide_eq_true_eq] at ha
      simp [hA, ha, Side.other]


/-- C1: In human-vs-computer mode with the human on Black, over every
event trace of the match the first committed move (if one exists) is
computer-attributed and made by White; no two consecutive committed
moves are computer-attributed; and every proposer best-move is applied
only when the side to move equals the computer's side (every
computer-attributed commit is by White, the computer's side). -/
theorem c1_humanBlack_first_commit_ai_white_no_double_ai (es : List Event) :
    firstIsAiWhite (runEvents initialBlackVsAi es).2 = true ∧
    noConsecAi (runEvents initialBlackVsAi es).2 = true ∧
    allAiWhite (runEvents initialBlackVsAi es).2 = true := by
  obtain ⟨-, -, halt, hok⟩ :=
    runEvents_inv es initialBlackVsAi rfl
  have hturn : initialBlackVsAi.game.turn = .white := rfl
  have hps : initialBlackVsAi.store.playerSide = .black := rfl
  rw [hturn] at halt
  rw [hps] at hok
  exact ⟨firstIsAiWhite_of_inv _ halt hok,
         noConsecAi_of_alt .black _ .white halt hok,
         allAiWhite_of_actorsOk _ hok⟩


/-! ## Rejection lemmas for `onDrop` -/

theorem onDrop_terminal_false (s : AppState) (inp : DropInput)
    (h : s.store.gameResult ≠ none) : (onDrop s inp).1 = false := by
  unfold onDrop
  rw [if_pos (Or.inr h)]

theorem onDrop_thinking_false (s : AppState) (inp : DropInput)
    (hm : s.store.mode = .computer) (ht : s.store.isThinking = true) :
    (onDrop s inp).1 = false := by
  unfold onDrop
  by_cases h1 : s.store.gameStarted = false ∨ s.store.gameResult ≠ none
  · rw [if_pos h1]
  · rw [if_neg h1, if_pos ⟨hm, Or.inr ht⟩]

theorem onDrop_outOfTurn_false (s : AppState) (inp : DropInput)
    (hm : s.store.mode = .computer) (ht : ¬s.game.turn = s.store.playerSide) :
    (onDrop s inp).1 = false := by
  unfold onDrop
  by_cases h1 : s.store.gameStarted = false ∨ s.store.gameResult ≠ none
  · rw [if_pos h1]
  · rw [if_neg h1,
        if_pos ⟨hm, Or.inl fun hdisj => ht ((playerTurn_iff _ _).mp hdisj)⟩]

theorem onDrop_wrongPiece_false (s : AppState) (inp : DropInput) (c : Side)
    (hp : inp.pieceColor = some c) (hc : ¬c = s.game.turn) :
    (onDrop s inp).1 = false := by
  unfold onDrop
  by_cases h1 : s.store.gameStarted = false ∨ s.store.gameResult ≠ none
  · rw [if_pos h1]
  · rw [if_neg h1]
    by_cases h2 : s.store.mode = .computer ∧
        (¬((s.store.playerSide = .white ∧ s.game.turn = .white) ∨
           (s.store.playerSide = .black ∧ s.game.turn = .black)) ∨
         s.store.isThinking = true)
    · rw [if_pos h2]
    · rw [if_neg h2]
      simp only [hp]
      rw [if_pos hc]

theorem onDrop_illegal_false (s : AppState) (inp : DropInput)
    (h : inp.legal = false) : (onDrop s inp).1 = false := by
  unfold onDrop
  split
  · rfl
  · split
    · rfl
    · split
      · rfl
      · split
        · rfl
        · split
          · rfl
          · rw [makeMove_of_not_legal s _ h]

/-! ## Claim theorems -/

/-- C3: once a side's remaining time is 0 and a result is recorded, a
further timer firing is a no-op, a straggling `updateTime` call at the
timer's computed value leaves that side's time at exactly 0 and the
recorded result untouched, and no `updateTime` call can ever make a
remaining time negative or touch the other side's clock. -/
theorem c3_tick_after_zero_terminal_idempotent (s : GameState) (c : Side)
    (r : GameResult) (e t : ℚ) (c2 : Side)
    (hres : s.gameResult = some r) (hzero : timeOf s c = 0) :
    chessTimerFire s e = s ∧
    timeOf (updateTime s c (max 0 (timeOf s c - 1))) c = 0 ∧
    (updateTime s c (max 0 (timeOf s c - 1))).gameResult = some r ∧
    0 ≤ timeOf (updateTime s c2 t) c2 ∧
    timeOf (updateTime s c2 t) c2.other = timeOf s c2.other := by
  have hncond : ¬(s.gameStarted = true ∧ s.gameResult = none) := by
    rintro ⟨-, h2⟩
    rw [hres] at h2
    exact Option.noConfusion h2
  have harg : max 0 (timeOf s c - 1) = 0 := by
    rw [hzero]; norm_num
  have hj : jsRound ((0 : ℚ) * 10) = 0 := by
    rw [show ((0 : ℚ) * 10) = ((0 : ℤ) : ℚ) by norm_num, jsRound_intCast]
  have hupd : updateTime s c 0 = setTime s c 0 := by
    unfold updateTime
    dsimp only
    rw [hj]
    rw [if_neg]
    · norm_num
    · rintro ⟨-, -, h2⟩
      rw [hres] at h2
      exact Option.noConfusion h2
  refine ⟨?_, ?_, ?_, updateTime_nonneg s c2 t, updateTime_other s c2 t⟩
  · unfold chessTimerFire
    rw [if_neg hncond]
  · rw [harg, hupd, timeOf_setTime_self]
  · rw [harg, hupd, setTime_gameResult, hres]

/-- Witness for C3 at a concrete terminal state. -/
theorem c3_witness :
    chessTimerFire terminalDemoState 3 = terminalDemoState ∧
    timeOf (updateTime terminalDemoState .white
      (max 0 (timeOf terminalDemoState .white - 1))) .white = 0 ∧
    (updateTime terminalDemoState .white
      (max 0 (timeOf terminalDemoState .white - 1))).gameResult =
      some { winner := some .black, reason := "time forfeit" } ∧
    0 ≤ timeOf (updateTime terminalDemoState .black 7) .black ∧
    timeOf (updateTime terminalDemoState .black 7) Side.black.other =
      timeOf terminalDemoState Side.black.other :=
  c3_tick_after_zero_terminal_idempotent terminalDemoState .white
    { winner := some .black, reason := "time forfeit" } 3 7 .black rfl rfl

/-- C6 counterexample: at an ongoing position with a request
outstanding, a "no move available" reply (`move: null`) is dropped by
`if (move) onBestMove(move)` — the state is completely unchanged, so no
internal error is surfaced anywhere (the thinking flag is not even
cleared), contradicting the claim that the controller surfaces an
internal error. -/
theorem c6_counterexample_null_bestmove_silently_dropped :
    thinkingOngoingState.store.gameResult = none ∧
    thinkingOngoingState.game.flags.isGameOver = false ∧
    thinkingOngoingState.store.isThinking = true ∧
    handleWorkerBestmove thinkingOngoingState none = thinkingOngoingState ∧
    (handleWorkerBestmove thinkingOngoingState none).store.isThinking = true ∧
    (handleWorkerBestmove thinkingOngoingState none).store.gameResult = none :=
  ⟨rfl, rfl, rfl, rfl, rfl, rfl⟩

/-- C6 amended: when the proposer reports "no move available" the
message handler drops the reply entirely: the application state is
unchanged — no error state is surfaced, the match result and thinking
flag are untouched and the turn is not passed. -/
theorem c6_amended_null_bestmove_is_noop (s : AppState) :
    handleWorkerBestmove s none = s ∧
    (handleWorkerBestmove s none).store.gameResult = s.store.gameResult ∧
    (handleWorkerBestmove s none).store.isThinking = s.store.isThinking ∧
    (handleWorkerBestmove s none).game = s.game :=
  ⟨rfl, rfl, rfl, rfl⟩

/-- C7: every rejected drop intent — terminal match, computer thinking,
out of turn, wrong side's piece, illegal move — returns `false`, and
every drop that returns `false` leaves the match state (store with
clocks, active side and result; position; move history) unchanged. -/
theorem c7_rejected_intents_no_state_change (s : AppState) (inp : DropInput) :
    ((onDrop s inp).1 = false →
      (onDrop s inp).2.store = s.store ∧ (onDrop s inp).2.game = s.game ∧
      (onDrop s inp).2.past = s.past) ∧
    (s.store.gameResult ≠ none → (onDrop s inp).1 = false) ∧
    (s.store.mode = .computer → s.store.isThinking = true →
      (onDrop s inp).1 = false) ∧
    (s.store.mode = .computer → ¬s.game.turn = s.store.playerSide →
      (onDrop s inp).1 = false) ∧
    (∀ c, inp.pieceColor = some c → ¬c = s.game.turn →
      (onDrop s inp).1 = false) ∧
    (inp.legal = false → (onDrop s inp).1 = false) :=
  ⟨onDrop_rejected s inp,
   onDrop_terminal_false s inp,
   onDrop_thinking_false s inp,
   onDrop_outOfTurn_false s inp,
   fun c hp hc => onDrop_wrongPiece_false s inp c hp hc,
   onDrop_illegal_false s inp⟩

/-- Witness for C7: a drop on an already-decided match is rejected and
changes nothing. -/
theorem c7_witness :
    (onDrop terminalAppState demoDropInput).1 = false ∧
    (onDrop terminalAppState demoDropInput).2.store = terminalAppState.store ∧
    (onDrop terminalAppState demoDropInput).2.game = terminalAppState.game ∧
    (onDrop terminalAppState demoDropInput).2.past = terminalAppState.past := by
  have hrej : (onDrop terminalAppState demoDropInput).1 = false :=
    (c7_rejected_intents_no_state_change terminalAppState demoDropInput).2.1
      (by decide)
  have hframe :=
    (c7_rejected_intents_no_state_change terminalAppState demoDropInput).1 hrej
  exact ⟨hrej, hframe.1, hframe.2.1, hframe.2.2⟩

/-- C10: `endGame` records the result and changes nothing else —
`gameStarted` keeps its value (so a started game stays started) and
every other store field is preserved. -/
theorem c10_endGame_changes_only_result (s : GameState) (r : GameResult) :
    (endGame s r).gameResult = some r ∧
    (endGame s r).gameStarted = s.gameStarted ∧
    (endGame s r).mode = s.mode ∧
    (endGame s r).playerSide = s.playerSide ∧
    (endGame s r).timeControl = s.timeControl ∧
    (endGame s r).aiStrength = s.aiStrength ∧
    (endGame s r).whiteTime = s.whiteTime ∧
    (endGame s r).blackTime = s.blackTime ∧
    (endGame s r).activeColor = s.activeColor ∧
    (endGame s r).isThinking = s.isThinking ∧
    (endGame s r).evaluationScore = s.evaluationScore ∧
    (endGame s r).soundEnabled = s.soundEnabled ∧
    (endGame s r).boardFlipped = s.boardFlipped :=
  ⟨rfl, rfl, rfl, rfl, rfl, rfl, rfl, rfl, rfl, rfl, rfl, rfl, rfl⟩


/-! ## Clock-step helpers -/

@[simp] theorem timeOf_onTimeUp (s : GameState) (c2 c : Side) :
    timeOf (onTimeUp s c2) c = timeOf s c := timeOf_endGame _ _ _

theorem updateTime_zero_self (s : GameState) (c : Side) :
    timeOf (updateTime s c 0) c = 0 ∧
    timeOf (updateTime s c 0) c.other = timeOf s c.other := by
  have h0 : ((jsRound ((0 : ℚ) * 10) : ℤ) : ℚ) / 10 = 0 := by
    rw [show ((0 : ℚ) * 10) = ((0 : ℤ) : ℚ) by norm_num, jsRound_intCast]
    norm_num
  unfold updateTime
  dsimp only
  rw [h0, max_self]
  split
  · constructor <;> (cases c <;> simp [timeOf, setTime, Side.other])
  · constructor <;> (cases c <;> simp [timeOf, setTime, Side.other])

theorem Tenth_timeOf (st : GameState) (c : Side)
    (hw : Tenth st.whiteTime) (hb : Tenth st.blackTime) :
    Tenth (timeOf st c) := by
  cases c with
  | white => exact hw
  | black => exact hb

theorem nonneg_timeOf (st : GameState) (c : Side)
    (hw : 0 ≤ st.whiteTime) (hb : 0 ≤ st.blackTime) :
    0 ≤ timeOf st c := by
  cases c with
  | white => exact hw
  | black => exact hb

theorem Tenth_sub_one {t : ℚ} (ht : Tenth t) : Tenth (t - 1) := by
  have h : t + (-10 : ℤ) / 10 = t - 1 := by push_cast; ring
  rw [← h]
  exact ht.add ⟨-10, rfl⟩

/-- A live firing subtracts exactly one second from the active side and
leaves the other side's clock alone, for any elapsed wall-clock gap. -/
theorem chessTimerFire_step (s : GameState) (e : ℚ)
    (hstart : s.gameStarted = true) (hres : s.gameResult = none)
    (ht : Tenth (timeOf s s.activeColor))
    (h1 : 1 ≤ timeOf s s.activeColor) :
    timeOf (chessTimerFire s e) s.activeColor
      = timeOf s s.activeColor - 1 ∧
    timeOf (chessTimerFire s e) s.activeColor.other
      = timeOf s s.activeColor.other := by
  unfold chessTimerFire
  dsimp only
  rw [if_pos ⟨hstart, hres⟩]
  rcases eq_or_lt_of_le h1 with heq | hlt
  · have ht1 : timeOf s s.activeColor = 1 := heq.symm
    rw [ht1]
    rw [show max (0 : ℚ) (1 - 1) = 0 by norm_num]
    rw [if_pos rfl]
    have hz := updateTime_zero_self s s.activeColor
    constructor
    · rw [timeOf_onTimeUp, hz.1]; norm_num
    · rw [timeOf_onTimeUp, hz.2]
  · have hpos : 0 < timeOf s s.activeColor - 1 := by linarith
    rw [max_eq_right hpos.le]
    rw [updateTime_exact s s.activeColor (Tenth_sub_one ht) hpos]
    rw [if_neg hpos.ne']
    exact ⟨timeOf_setTime_self _ _ _, timeOf_setTime_other _ _ _⟩

/-- C2 counterexample: a `ChessTimer` firing after a 2.5-second
cooperative-scheduling gap still subtracts exactly one second — the
decrement is not the elapsed wall-clock amount. -/
theorem c2_counterexample_fixed_step_not_elapsed :
    (chessTimerFire timerDemoState (5 / 2)).whiteTime = 9 ∧
    ¬((chessTimerFire timerDemoState (5 / 2)).whiteTime =
        timerDemoState.whiteTime - 5 / 2) := by
  have hstep := chessTimerFire_step timerDemoState (5 / 2) rfl rfl
    ⟨100, by norm_num [timerDemoState, initialState, timeOf]⟩
    (by norm_num [timerDemoState, initialState, timeOf])
  have hw : (chessTimerFire timerDemoState (5 / 2)).whiteTime = 9 := by
    have h := hstep.1
    rw [show timeOf timerDemoState timerDemoState.activeColor = 10 from rfl] at h
    norm_num at h
    exact h
  refine ⟨hw, ?_⟩
  rw [hw, show timerDemoState.whiteTime = 10 from rfl]
  norm_num

/-- C2 amended: each `ChessTimer` interval firing in a live unresolved
game subtracts a fixed one second from the active side's remaining time
(clamped at 0 by the store), independent of the actual elapsed
wall-clock gap since the previous firing; the inactive side's clock is
unchanged. -/
theorem c2_amended_fixed_one_second_step (s : GameState) (e1 e2 : ℚ)
    (hstart : s.gameStarted = true) (hres : s.gameResult = none)
    (ht : Tenth (timeOf s s.activeColor))
    (h1 : 1 ≤ timeOf s s.activeColor) :
    chessTimerFire s e1 = chessTimerFire s e2 ∧
    timeOf (chessTimerFire s e1) s.activeColor
      = timeOf s s.activeColor - 1 ∧
    timeOf (chessTimerFire s e1) s.activeColor.other
      = timeOf s s.activeColor.other ∧
    0 ≤ timeOf (chessTimerFire s e1) s.activeColor := by
  have hkey := chessTimerFire_step s e1 hstart hres ht h1
  refine ⟨rfl, hkey.1, hkey.2, ?_⟩
  rw [hkey.1]
  linarith

/-- Witness for the amended C2 at a concrete live state. -/
theorem c2_amended_witness :
    chessTimerFire timerDemoState 2 = chessTimerFire timerDemoState 9 ∧
    timeOf (chessTimerFire timerDemoState 2) timerDemoState.activeColor
      = timeOf timerDemoState timerDemoState.activeColor - 1 ∧
    timeOf (chessTimerFire timerDemoState 2) timerDemoState.activeColor.other
      = timeOf timerDemoState timerDemoState.activeColor.other ∧
    0 ≤ timeOf (chessTimerFire timerDemoState 2) timerDemoState.activeColor :=
  c2_amended_fixed_one_second_step timerDemoState 2 9 rfl rfl
    ⟨100, by norm_num [timerDemoState, initialState, timeOf]⟩
    (by norm_num [timerDemoState, initialState, timeOf])

/-! ## Increment helpers -/

theorem addTimeIncrementFor_exact (st : GameState) (mover : Side)
    (hw : Tenth (timeOf st mover)) (h0 : 0 ≤ timeOf st mover)
    (hi : Tenth st.timeControl.increment)
    (hipos : 0 < st.timeControl.increment) :
    timeOf (addTimeIncrementFor st mover) mover
      = timeOf st mover + st.timeControl.increment ∧
    timeOf (addTimeIncrementFor st mover) mover.other
      = timeOf st mover.other ∧
    (addTimeIncrementFor st mover).gameResult = st.gameResult := by
  unfold addTimeIncrementFor
  rw [if_pos hipos]
  rw [updateTime_exact st mover (hw.add hi) (add_pos_of_nonneg_of_pos h0 hipos)]
  exact ⟨timeOf_setTime_self _ _ _, timeOf_setTime_other _ _ _,
         setTime_gameResult _ _ _⟩

theorem addTimeIncrementFor_result_none (st : GameState) (mover : Side)
    (hres : st.gameResult = none)
    (hw : Tenth (timeOf st mover)) (h0 : 0 ≤ timeOf st mover)
    (hi : Tenth st.timeControl.increment) :
    (addTimeIncrementFor st mover).gameResult = none := by
  unfold addTimeIncrementFor
  split
  · next hipos =>
    rw [updateTime_exact st mover (hw.add hi)
          (add_pos_of_nonneg_of_pos h0 hipos)]
    rw [setTime_gameResult]
    exact hres
  · exact hres

/-- C4: on every committed move — human (`makeMove`) or computer
(`handleAiMove`) — with a positive configured increment, the increment
is added exactly to the remaining time of the mover, the side opposite
the post-move side to move; the other side's clock is unchanged; and
`requestAiMove` (the start of thinking) changes neither clock. -/
theorem c4_increment_awarded_to_mover_on_commit (s : AppState)
    (inp : MoveInput) (ready : Bool) (hlegal : inp.legal = true)
    (hw : Tenth s.store.whiteTime) (hb : Tenth s.store.blackTime)
    (hw0 : 0 ≤ s.store.whiteTime) (hb0 : 0 ≤ s.store.blackTime)
    (hi : Tenth s.store.timeControl.increment)
    (hipos : 0 < s.store.timeControl.increment) :
    timeOf (makeMove s inp).2.store
        (applyMoveOracle s.game inp.postFlags).turn.other
      = timeOf s.store (applyMoveOracle s.game inp.postFlags).turn.other
        + s.store.timeControl.increment ∧
    timeOf (makeMove s inp).2.store
        ((applyMoveOracle s.game inp.postFlags).turn.other).other
      = timeOf s.store ((applyMoveOracle s.game inp.postFlags).turn.other).other ∧
    timeOf (handleAiMove s inp).store
        (applyMoveOracle s.game inp.postFlags).turn.other
      = timeOf s.store (applyMoveOracle s.game inp.postFlags).turn.other
        + s.store.timeControl.increment ∧
    timeOf (handleAiMove s inp).store
        ((applyMoveOracle s.game inp.postFlags).turn.other).other
      = timeOf s.store ((applyMoveOracle s.game inp.postFlags).turn.other).other ∧
    (requestAiMove ready s).1.store.whiteTime = s.store.whiteTime ∧
    (requestAiMove ready s).1.store.blackTime = s.store.blackTime := by
  have hmv : (applyMoveOracle s.game inp.postFlags).turn.other = s.game.turn :=
    Side.other_other _
  rw [hmv, makeMove_of_legal s inp hlegal, handleAiMove_of_legal s inp hlegal]
  dsimp only
  have hinc := addTimeIncrementFor_exact
      (setActiveColor s.store s.game.turn.other) s.game.turn
      (by rw [timeOf_setActiveColor]; exact Tenth_timeOf s.store _ hw hb)
      (by rw [timeOf_setActiveColor]; exact nonneg_timeOf s.store _ hw0 hb0)
      (by rw [setActiveColor_timeControl]; exact hi)
      (by rw [setActiveColor_timeControl]; exact hipos)
  refine ⟨?_, ?_, ?_, ?_, requestAiMove_whiteTime ready s,
          requestAiMove_blackTime ready s⟩
  · rw [timeOf_checkGameEnd, hinc.1, timeOf_setActiveColor,
        setActiveColor_timeControl]
  · rw [timeOf_checkGameEnd, hinc.2.1, timeOf_setActiveColor]
  · rw [timeOf_checkGameEnd, hinc.1, timeOf_setActiveColor,
        setActiveColor_timeControl]
  · rw [timeOf_checkGameEnd, hinc.2.1, timeOf_setActiveColor]

/-- Witness for C4: with a 10+2 control, White's committed move takes
White's clock from 600 to 602 and leaves Black's at 600. -/
theorem c4_witness :
    timeOf (makeMove incrementDemoState legalOngoingMove).2.store
        (applyMoveOracle incrementDemoState.game
          legalOngoingMove.postFlags).turn.other
      = timeOf incrementDemoState.store
          (applyMoveOracle incrementDemoState.game
            legalOngoingMove.postFlags).turn.other
        + incrementDemoState.store.timeControl.increment ∧
    timeOf (makeMove incrementDemoState legalOngoingMove).2.store
        ((applyMoveOracle incrementDemoState.game
          legalOngoingMove.postFlags).turn.other).other
      = timeOf incrementDemoState.store
          ((applyMoveOracle incrementDemoState.game
            legalOngoingMove.postFlags).turn.other).other ∧
    timeOf (handleAiMove incrementDemoState legalOngoingMove).store
        (applyMoveOracle incrementDemoState.game
          legalOngoingMove.postFlags).turn.other
      = timeOf incrementDemoState.store
          (applyMoveOracle incrementDemoState.game
            legalOngoingMove.postFlags).turn.other
        + incrementDemoState.store.timeControl.increment ∧
    timeOf (handleAiMove incrementDemoState legalOngoingMove).store
        ((applyMoveOracle incrementDemoState.game
          legalOngoingMove.postFlags).turn.other).other
      = timeOf incrementDemoState.store
          ((applyMoveOracle incrementDemoState.game
            legalOngoingMove.postFlags).turn.other).other ∧
    (requestAiMove true incrementDemoState).1.store.whiteTime
      = incrementDemoState.store.whiteTime ∧
    (requestAiMove true incrementDemoState).1.store.blackTime
      = incrementDemoState.store.blackTime :=
  c4_increment_awarded_to_mover_on_commit incrementDemoState legalOngoingMove
    true rfl ⟨6000, by norm_num [incrementDemoState, initialState]⟩
    ⟨6000, by norm_num [incrementDemoState, initialState]⟩
    (by norm_num [incrementDemoState, initialState])
    (by norm_num [incrementDemoState, initialState])
    ⟨20, by norm_num [incrementDemoState, initialState]⟩
    (by norm_num [incrementDemoState, initialState])


/-- C5 counterexample: at strength 10 (the hardest menu level, the
smallest floor) with the computer side down to 5 seconds, the request
issued by `requestAiMove` carries a 10000 ms budget and the worker's
delay floor `max(500, timeMs)` is 10000 ms — double the mover's entire
remaining clock, so the floor is not capped by the remaining time. -/
theorem c5_counterexample_floor_exceeds_remaining_clock :
    (requestAiMove true lowClockAiState).2.map AiRequest.thinkTime
      = some 10000 ∧
    (requestAiMove true lowClockAiState).2.map AiRequest.btimeMs
      = some 5000 ∧
    workerDelayMs 10000 = 10000 ∧
    ¬((workerDelayMs 10000 : ℚ) ≤ 5000) := by
  have hreq : requestAiMove true lowClockAiState =
      ({ lowClockAiState with
           store := setThinking
             (setActiveColor lowClockAiState.store .black) true },
       some { skill := engineSkill lowClockAiState.store.aiStrength
              depth := 10
              thinkTime := thinkTimeMs lowClockAiState.store.aiStrength
              wtimeMs := max 0 (lowClockAiState.store.whiteTime * 1000)
              btimeMs := max 0 (lowClockAiState.store.blackTime * 1000)
              wincMs := max 0 (lowClockAiState.store.timeControl.increment * 1000)
              bincMs := max 0 (lowClockAiState.store.timeControl.increment * 1000) }) := by
    unfold requestAiMove
    rw [if_neg (by decide), if_neg (by decide), if_neg (by decide)]
    rfl
  refine ⟨?_, ?_, by decide, ?_⟩
  · rw [hreq]
    simp only [Option.map_some']
    decide
  · rw [hreq]
    simp only [Option.map_some']
    norm_num [lowClockAiState, initialState]
  · rw [show workerDelayMs 10000 = 10000 by decide]
    norm_num

/-- C5 amended: the worker's minimum-delay floor equals the controller's
`thinkTime` budget, which scales strictly inversely with the configured
strength across the menu range 1..10 (weaker strength means a longer
floor); no cap by the mover's remaining clock time is applied anywhere. -/
theorem c5_amended_floor_inverse_strength_no_clock_cap (a b : ℤ)
    (h1 : 1 ≤ a) (hab : a < b) (hb10 : b ≤ 10) :
    thinkTimeMs b < thinkTimeMs a ∧
    workerDelayMs (thinkTimeMs a) = thinkTimeMs a ∧
    workerDelayMs (thinkTimeMs b) = thinkTimeMs b := by
  have hma : menuLevel a = a := by
    unfold menuLevel
    rw [min_eq_right (by omega), max_eq_right h1]
  have hmb : menuLevel b = b := by
    unfold menuLevel
    rw [min_eq_right hb10, max_eq_right (by omega)]
  refine ⟨?_, ?_, ?_⟩
  · simp only [thinkTimeMs, levelFactor, AI_THINK_MULTIPLIER, hma, hmb]
    omega
  · simp only [workerDelayMs, thinkTimeMs, levelFactor, AI_THINK_MULTIPLIER,
      hma]
    rw [if_neg (by omega), max_eq_right (by omega)]
  · simp only [workerDelayMs, thinkTimeMs, levelFactor, AI_THINK_MULTIPLIER,
      hmb]
    rw [if_neg (by omega), max_eq_right (by omega)]

/-- Witness for the amended C5 at strengths 3 and 7. -/
theorem c5_amended_witness :
    thinkTimeMs 7 < thinkTimeMs 3 ∧
    workerDelayMs (thinkTimeMs 3) = thinkTimeMs 3 ∧
    workerDelayMs (thinkTimeMs 7) = thinkTimeMs 7 :=
  c5_amended_floor_inverse_strength_no_clock_cap 3 7 (by norm_num)
    (by norm_num) (by norm_num)

/-! ## Terminal-status helper -/

theorem checkGameEnd_result (st : GameState) (g : Position)
    (hres : st.gameResult = none) :
    (g.flags.isGameOver = false → (checkGameEnd st g).gameResult = none) ∧
    (g.flags.isGameOver = true → g.flags.isCheckmate = true →
      (checkGameEnd st g).gameResult =
        some { winner := some g.turn.other, reason := "checkmate" }) ∧
    (g.flags.isGameOver = true → g.flags.isCheckmate = false →
      ((checkGameEnd st g).gameResult).map GameResult.winner = some none) := by
  refine ⟨fun hgo => ?_, fun hgo hcm => ?_, fun hgo hcm => ?_⟩
  · unfold checkGameEnd
    rw [if_neg (by simp [hgo])]
    exact hres
  · unfold checkGameEnd
    rw [if_pos hgo]
    dsimp only
    rw [if_pos hcm, if_pos hcm]
    rfl
  · unfold checkGameEnd
    rw [if_pos hgo]
    dsimp only
    rw [if_neg (by simp [hcm])]
    simp [endGame]

/-- C8: after a committed move (either the human `makeMove` path or the
computer `handleAiMove` path) on a live unresolved game, the recorded
result is re-derived from the post-move position's oracle verdicts:
no result when the position is ongoing; on checkmate the winner is the
side opposite the post-move side to move (the mover); on stalemate or
any draw verdict the winner is `none`. -/
theorem c8_terminal_rederived_from_postmove_position (s : AppState)
    (inp : MoveInput) (hlegal : inp.legal = true)
    (hres : s.store.gameResult = none)
    (hw : Tenth s.store.whiteTime) (hb : Tenth s.store.blackTime)
    (hw0 : 0 ≤ s.store.whiteTime) (hb0 : 0 ≤ s.store.blackTime)
    (hi : Tenth s.store.timeControl.increment) :
    (inp.postFlags.isGameOver = false →
      (makeMove s inp).2.store.gameResult = none ∧
      (handleAiMove s inp).store.gameResult = none) ∧
    (inp.postFlags.isGameOver = true → inp.postFlags.isCheckmate = true →
      (makeMove s inp).2.store.gameResult =
        some { winner := some (applyMoveOracle s.game inp.postFlags).turn.other
               reason := "checkmate" } ∧
      (handleAiMove s inp).store.gameResult =
        some { winner := some (applyMoveOracle s.game inp.postFlags).turn.other
               reason := "checkmate" }) ∧
    (inp.postFlags.isGameOver = true → inp.postFlags.isCheckmate = false →
      ((makeMove s inp).2.store.gameResult).map GameResult.winner = some none ∧
      ((handleAiMove s inp).store.gameResult).map GameResult.winner
        = some none) := by
  rw [makeMove_of_legal s inp hlegal, handleAiMove_of_legal s inp hlegal]
  dsimp only
  have hnone : (addTimeIncrementFor
      (setActiveColor s.store s.game.turn.other) s.game.turn).gameResult
        = none := by
    apply addTimeIncrementFor_result_none
    · rw [setActiveColor_gameResult]; exact hres
    · rw [timeOf_setActiveColor]; exact Tenth_timeOf s.store _ hw hb
    · rw [timeOf_setActiveColor]; exact nonneg_timeOf s.store _ hw0 hb0
    · rw [setActiveColor_timeControl]; exact hi
  have hcge := checkGameEnd_result
    (addTimeIncrementFor (setActiveColor s.store s.game.turn.other) s.game.turn)
    (applyMoveOracle s.game inp.postFlags) hnone
  exact ⟨fun hgo => ⟨hcge.1 hgo, hcge.1 hgo⟩,
         fun hgo hcm => ⟨hcge.2.1 hgo hcm, hcge.2.1 hgo hcm⟩,
         fun hgo hcm => ⟨hcge.2.2 hgo hcm, hcge.2.2 hgo hcm⟩⟩

/-- Witness for C8: a checkmating move records the mover as winner. -/
theorem c8_witness :
    (makeMove liveDemoAppState mateMove).2.store.gameResult =
      some { winner :=
               some (applyMoveOracle liveDemoAppState.game
                 mateMove.postFlags).turn.other
             reason := "checkmate" } ∧
    (handleAiMove liveDemoAppState mateMove).store.gameResult =
      some { winner :=
               some (applyMoveOracle liveDemoAppState.game
                 mateMove.postFlags).turn.other
             reason := "checkmate" } :=
  (c8_terminal_rederived_from_postmove_position liveDemoAppState mateMove rfl
    rfl ⟨6000, by norm_num [liveDemoAppState, initialState, startGame]⟩
    ⟨6000, by norm_num [liveDemoAppState, initialState, startGame]⟩
    (by norm_num [liveDemoAppState, initialState, startGame])
    (by norm_num [liveDemoAppState, initialState, startGame])
    ⟨0, by norm_num [liveDemoAppState, initialState, startGame]⟩).2.1 rfl rfl

/-- C9 counterexample: undo after the computer's first move (human
plays Black) does restore the prior position and does set the active
side back to the computer's side, but it issues zero proposer requests
— not exactly one — and the undo control is not even enabled in
computer mode. -/
theorem c9_counterexample_undo_issues_no_request :
    (handleUndo afterFirstAiMove).1.game = initialBlackVsAi.game ∧
    (handleUndo afterFirstAiMove).1.store.activeColor = .white ∧
    (handleUndo afterFirstAiMove).2 = [EngineCall.analyzeCall] ∧
    (handleUndo afterFirstAiMove).2.count EngineCall.findBestMoveCall = 0 ∧
    ¬((handleUndo afterFirstAiMove).2.count EngineCall.findBestMoveCall = 1) ∧
    allowUndo afterFirstAiMove.store = false := by
  refine ⟨by decide, by decide, by decide, by decide, by decide, by decide⟩

/-- C9 amended: undo with a non-empty history pops exactly one move,
restores the previous position and its side to move as the active
colour, leaves the recorded result untouched, and emits only an
evaluation request — no proposer (`findBestMove`) request is issued;
moreover the undo control is disabled in computer mode. -/
theorem c9_amended_undo_restores_without_request (s : AppState)
    (p : Position) (rest : List Position) (hp : s.past = p :: rest) :
    (handleUndo s).1.game = p ∧
    (handleUndo s).1.past = rest ∧
    (handleUndo s).1.store.activeColor = p.turn ∧
    (handleUndo s).1.store.gameResult = s.store.gameResult ∧
    (handleUndo s).2 = [EngineCall.analyzeCall] ∧
    (handleUndo s).2.count EngineCall.findBestMoveCall = 0 ∧
    (s.store.mode = .computer → allowUndo s.store = false) := by
  unfold handleUndo
  simp only [hp]
  refine ⟨?_, ?_, ?_, ?_, ?_, ?_, fun hm => ?_⟩ <;>
    first
      | trivial
      | (unfold allowUndo; rw [hm]; rfl)

/-- Witness for the amended C9 after the computer's first move. -/
theorem c9_amended_witness :
    (handleUndo afterFirstAiMove).1.game = startPosition ∧
    (handleUndo afterFirstAiMove).1.past = [] ∧
    (handleUndo afterFirstAiMove).1.store.activeColor = startPosition.turn ∧
    (handleUndo afterFirstAiMove).1.store.gameResult
      = afterFirstAiMove.store.gameResult ∧
    (handleUndo afterFirstAiMove).2 = [EngineCall.analyzeCall] ∧
    (handleUndo afterFirstAiMove).2.count EngineCall.findBestMoveCall = 0 ∧
    (afterFirstAiMove.store.mode = .computer →
      allowUndo afterFirstAiMove.store = false) :=
  c9_amended_undo_restores_without_request afterFirstAiMove startPosition []
    (by decide)

end ChessApp
